import Mathlib

/-!
Shallow embedding of the ADGM corporate-agent document pipeline
(`checklist.py`, `doc_processor.py`, `comments_util.py`) and proofs of the
specification claims about it.

Strings are modelled as `List Char`; Python substring membership (`in`)
becomes an executable infix search `containsSub`; Python dicts iterated in
insertion order become ordered association lists.
-/

/-- Characters of a Lean string literal, the concrete string representation. -/
def str (s : String) : List Char := s.toList

/-- Python `str.lower()` (ASCII inputs in this program). -/
def lowerStr (s : List Char) : List Char := s.map Char.toLower

/-- Boolean list-prefix test, helper for the substring search. -/
def isPrefixB : List Char → List Char → Bool
  | [], _ => true
  | _ :: _, [] => false
  | a :: as, b :: bs => (a == b) && isPrefixB as bs

/-- Python `needle in hay` for strings: contiguous-substring search. -/
def containsSub (needle : List Char) : List Char → Bool
  | [] => needle.isEmpty
  | c :: rest => isPrefixB needle (c :: rest) || containsSub needle rest

theorem isPrefixB_iff (n h : List Char) : isPrefixB n h = true ↔ n <+: h := by
  induction n generalizing h with
  | nil => simp [isPrefixB]
  | cons a as ih =>
    cases h with
    | nil => simp [isPrefixB]
    | cons b bs => simp [isPrefixB, List.cons_prefix_cons, ih]

theorem containsSub_iff (n h : List Char) : containsSub n h = true ↔ n <:+: h := by
  induction h with
  | nil =>
    simp only [containsSub, List.isEmpty_iff]
    constructor
    · rintro rfl; exact List.nil_infix
    · intro hi; exact List.eq_nil_of_infix_nil hi
  | cons c rest ih =>
    simp only [containsSub, Bool.or_eq_true, isPrefixB_iff, ih, List.infix_cons_iff]

/- ------------------------------------------------------------------ -/
/- checklist.py                                                        -/
/- ------------------------------------------------------------------ -/

/-- The `REQUIRED_DOCS` mapping of `checklist.py` (an ordered dict). -/
def REQUIRED_DOCS : List (List Char × List (List Char)) :=
  [ (str "Company Incorporation",
      [ str "Articles of Association"
      , str "Memorandum of Association"
      , str "Board Resolution"
      , str "Shareholder Resolution"
      , str "UBO Declaration Form"
      , str "Register of Members and Directors"
      , str "Incorporation Application Form" ])
  , (str "Employment & HR",
      [ str "Employment Contract"
      , str "Offer Letter"
      , str "Employee Handbook" ]) ]

/-- Python `REQUIRED_DOCS.get(process, [])`. -/
def requiredDocsFor (process : List Char) : List (List Char) :=
  ((REQUIRED_DOCS.find? (fun e => e.1 == process)).map Prod.snd).getD []

/-- Keyword set of the first branch of `detect_process_from_docs`. -/
def INCORP_KEYWORDS : List (List Char) :=
  [str "incorporation", str "articles", str "memorandum", str "ubo", str "register"]

/-- Keyword set of the second branch of `detect_process_from_docs`. -/
def HR_KEYWORDS : List (List Char) :=
  [str "employment", str "contract", str "hr"]

/-- Python `" ".join([fn.lower() for fn in filenames])`. -/
def joinedFilenames (filenames : List (List Char)) : List Char :=
  List.intercalate (str " ") (filenames.map lowerStr)

/-- The `detect_process_from_docs` function of `checklist.py`. -/
def detect_process_from_docs (filenames : List (List Char)) : List Char :=
  let joined := joinedFilenames filenames
  if INCORP_KEYWORDS.any (fun k => containsSub k joined) then str "Company Incorporation"
  else if HR_KEYWORDS.any (fun k => containsSub k joined) then str "Employment & HR"
  else str "Company Incorporation"

/-- The `DOC_TYPE_KEYWORDS` ordered dict of `checklist.py`. -/
def DOC_TYPE_KEYWORDS : List (List Char × List (List Char)) :=
  [ (str "Articles of Association", [str "articles of association", str "aoa"])
  , (str "Memorandum of Association", [str "memorandum of association", str "moa", str "mou"])
  , (str "Board Resolution", [str "board resolution"])
  , (str "Shareholder Resolution", [str "shareholder resolution"])
  , (str "UBO Declaration Form", [str "ubo", str "ultimate beneficial owner"])
  , (str "Register of Members and Directors", [str "register of members", str "register of directors"])
  , (str "Incorporation Application Form", [str "incorporation application", str "application form"])
  , (str "Employment Contract", [str "employment contract", str "standard employment contract"]) ]

/-- Haystack `f"{filename.lower()} {text.lower()}"` of `classify_doc_type`. -/
def classifyHay (filename text : List Char) : List Char :=
  lowerStr filename ++ str " " ++ lowerStr text

/-- The `classify_doc_type` function of `checklist.py`: first table entry with
a matching keyword wins; `"Unknown"` when none matches. -/
def classify_doc_type (filename text : List Char) : List Char :=
  let hay := classifyHay filename text
  ((DOC_TYPE_KEYWORDS.find? (fun e => e.2.any (fun k => containsSub k hay))).map Prod.fst).getD
    (str "Unknown")

/- ------------------------------------------------------------------ -/
/- doc_processor.py : rule tables, text extraction, red flags          -/
/- ------------------------------------------------------------------ -/

/-- The `BAD_JURISDICTION` phrase list. -/
def BAD_JURISDICTION : List (List Char) :=
  [str "uae federal court", str "dubai courts", str "onshore uae"]

/-- The `WEAK_LANGUAGE` phrase list. -/
def WEAK_LANGUAGE : List (List Char) :=
  [str "may at its discretion", str "best efforts", str "commercially reasonable efforts"]

/-- The `MISSING_SIGN_KEYS` keyword list. -/
def MISSING_SIGN_KEYS : List (List Char) :=
  [str "signature", str "signed by", str "authorised signatory", str "authorized signatory",
   str "date", str "name"]

/-- The `_extract_text` function: paragraph texts joined by newlines, truncated
to the first 20000 characters (`max_chars` default). -/
def extract_text (paragraphs : List (List Char)) : List Char :=
  (List.intercalate (str "\n") paragraphs).take 20000

/-- A retrieved reference document: `metadata.get("source", ...)` is modelled by
an optional source identifier. -/
structure RDoc where
  source : Option (List Char)
deriving DecidableEq

/-- The retriever interface: `retriever.get_relevant_documents(query)`. -/
def Retriever : Type := List Char → List RDoc

/-- One red-flag issue record. -/
structure Issue where
  issue : List Char
  severity : List Char
  suggestion : List Char
  citation : List Char
deriving DecidableEq

/-- Python `refs[0].metadata.get("source", fb) if refs else fb`. -/
def citationFrom (refs : List RDoc) (fb : List Char) : List Char :=
  match refs with
  | [] => fb
  | d :: _ => d.source.getD fb

/-- Description text of the jurisdiction issue. -/
def jurisdictionDesc : List Char := str "Jurisdiction references onshore UAE/Federal Courts"

/-- Description text of a weak-language issue for phrase `t`. -/
def weakDesc (t : List Char) : List Char :=
  str "Ambiguous/weak obligation: \x27" ++ t ++ str "\x27"

/-- Description text of the missing-signatory issue. -/
def signDesc : List Char := str "Missing or incomplete signatory section."

/-- The jurisdiction issue record built by `_find_red_flags`. -/
def jurisdictionIssue (r : Retriever) : Issue :=
  { issue := jurisdictionDesc
  , severity := str "High"
  , suggestion := str "Update governing law and forum to ADGM Courts."
  , citation := citationFrom
      (r (str "ADGM jurisdiction clause Companies Regulations courts venue"))
      (str "ADGM Regulation") }

/-- A weak-language issue record built by `_find_red_flags` for phrase `t`. -/
def weakIssue (r : Retriever) (docType t : List Char) : Issue :=
  { issue := weakDesc t
  , severity := str "Medium"
  , suggestion := str "Prefer firm language (\x27shall\x27, specific obligations)."
  , citation := citationFrom
      (r (str "binding language " ++ docType ++ str " ADGM template clause shall must"))
      (str "ADGM Guidance/Template") }

/-- The missing-signatory issue record built by `_find_red_flags`. -/
def signIssue (r : Retriever) (docType : List Char) : Issue :=
  { issue := signDesc
  , severity := str "High"
  , suggestion := str "Add an authorised signatory block with name, title, date, signature."
  , citation := citationFrom
      (r (docType ++ str " signature block ADGM template"))
      (str "ADGM Template") }

/-- The `_find_red_flags` function of `doc_processor.py`: jurisdiction rule
(first matching phrase only, via `break`), weak-language rule (one issue per
matching phrase), signature rule (one issue when no keyword occurs), in that
order. -/
def find_red_flags (text : List Char) (r : Retriever) (docType : List Char) : List Issue :=
  let lowers := lowerStr text
  (match BAD_JURISDICTION.find? (fun t => containsSub t lowers) with
    | some _ => [jurisdictionIssue r]
    | none => [])
  ++ (WEAK_LANGUAGE.filter (fun t => containsSub t lowers)).map (weakIssue r docType)
  ++ (if MISSING_SIGN_KEYS.any (fun k => containsSub k lowers) then []
      else [signIssue r docType])

/- ------------------------------------------------------------------ -/
/- doc_processor.py : analyze_documents checklist part                 -/
/- ------------------------------------------------------------------ -/

/-- An uploaded file: original name and the paragraph texts of its `.docx`
content. -/
abbrev Upload : Type := List Char × List (List Char)

/-- Classified type of an upload, as computed inside `analyze_documents`. -/
def docTypeOf (f : Upload) : List Char :=
  classify_doc_type f.1 (extract_text f.2)

/-- Python `{d["type"] for d in doc_infos if d["type"] != "Unknown"}` (membership
in the set is what matters downstream). -/
def present_types (files : List Upload) : List (List Char) :=
  (files.map docTypeOf).filter (fun t => !(t == str "Unknown"))

/-- Python `[d for d in required if d not in present_types]` with
`required = REQUIRED_DOCS.get(process, [])`. -/
def missing_documents (process : List Char) (files : List Upload) : List (List Char) :=
  (requiredDocsFor process).filter (fun d => decide (d ∉ present_types files))

/-- C3: for filenames `["AoA.docx","MoA.docx"]` the auto-detected process is
"Company Incorporation", the required list has 7 entries, and the missing list
is exactly the 5 named entries in required-list order. -/
theorem scenarioA_incorporation :
    detect_process_from_docs [str "AoA.docx", str "MoA.docx"] = str "Company Incorporation"
    ∧ (requiredDocsFor (detect_process_from_docs [str "AoA.docx", str "MoA.docx"])).length = 7
    ∧ missing_documents (detect_process_from_docs [str "AoA.docx", str "MoA.docx"])
        [(str "AoA.docx", []), (str "MoA.docx", [])]
      = [ str "Board Resolution"
        , str "Shareholder Resolution"
        , str "UBO Declaration Form"
        , str "Register of Members and Directors"
        , str "Incorporation Application Form" ] := by
  refine ⟨by decide, by decide, by decide⟩

/- ------------------------------------------------------------------ -/
/- Red-flag rule classification helpers                                -/
/- ------------------------------------------------------------------ -/

/-- Boolean test: is this the jurisdiction issue (by description)? -/
def isJurisB (i : Issue) : Bool := i.issue == jurisdictionDesc

/-- Boolean test: is this a Medium-severity (weak-language) issue? -/
def isMediumB (i : Issue) : Bool := i.severity == str "Medium"

/-- Boolean test: is this the missing-signatory issue (by description)? -/
def isSignB (i : Issue) : Bool := i.issue == signDesc

theorem weakDesc_ne_juris : ∀ u ∈ WEAK_LANGUAGE, (weakDesc u == jurisdictionDesc) = false := by
  decide

theorem weakDesc_ne_sign : ∀ u ∈ WEAK_LANGUAGE, (weakDesc u == signDesc) = false := by
  decide

theorem weakDesc_inj_on : ∀ u ∈ WEAK_LANGUAGE, ∀ v ∈ WEAK_LANGUAGE, weakDesc u = weakDesc v → u = v := by
  decide

theorem wl_nodup : WEAK_LANGUAGE.Nodup := by decide

theorem weak_part_filter_juris (r : Retriever) (docType : List Char) (p : List Char → Bool) :
    ((WEAK_LANGUAGE.filter p).map (weakIssue r docType)).filter isJurisB = [] := by
  rw [List.filter_eq_nil_iff]
  intro i hi
  obtain ⟨t, ht, rfl⟩ := List.mem_map.mp hi
  have htW := (List.mem_filter.mp ht).1
  simp only [isJurisB, weakIssue, Bool.not_eq_true]
  exact weakDesc_ne_juris t htW

theorem weak_part_filter_sign (r : Retriever) (docType : List Char) (p : List Char → Bool) :
    ((WEAK_LANGUAGE.filter p).map (weakIssue r docType)).filter isSignB = [] := by
  rw [List.filter_eq_nil_iff]
  intro i hi
  obtain ⟨t, ht, rfl⟩ := List.mem_map.mp hi
  have htW := (List.mem_filter.mp ht).1
  simp only [isSignB, weakIssue, Bool.not_eq_true]
  exact weakDesc_ne_sign t htW

theorem weak_part_filter_medium (r : Retriever) (docType : List Char) (p : List Char → Bool) :
    ((WEAK_LANGUAGE.filter p).map (weakIssue r docType)).filter isMediumB
      = (WEAK_LANGUAGE.filter p).map (weakIssue r docType) := by
  rw [List.filter_eq_self]
  intro i hi
  obtain ⟨t, _, rfl⟩ := List.mem_map.mp hi
  rfl

/-- C4: the detector emits exactly one jurisdiction issue when any of the fixed
onshore/federal-forum phrases occurs in the lower-cased text (no duplicates for
multiple matching phrases), zero otherwise, and any jurisdiction issue has High
severity. -/
theorem jurisdiction_rule (text : List Char) (r : Retriever) (docType : List Char) :
    ((find_red_flags text r docType).filter isJurisB).length
      = (if BAD_JURISDICTION.any (fun t => containsSub t (lowerStr text)) then 1 else 0)
    ∧ ((find_red_flags text r docType).filter isJurisB).map Issue.severity
      = (if BAD_JURISDICTION.any (fun t => containsSub t (lowerStr text)) then [str "High"] else []) := by
  have hw := weak_part_filter_juris r docType (fun t => containsSub t (lowerStr text))
  cases hj : BAD_JURISDICTION.find? (fun t => containsSub t (lowerStr text)) with
  | none =>
    have hany : BAD_JURISDICTION.any (fun t => containsSub t (lowerStr text)) = false := by
      rw [Bool.eq_false_iff]
      intro hcon
      obtain ⟨t, ht, hp⟩ := List.any_eq_true.mp hcon
      exact absurd hp (by simpa using List.find?_eq_none.mp hj t ht)
    by_cases hs : MISSING_SIGN_KEYS.any (fun k => containsSub k (lowerStr text)) = true
    · simp [find_red_flags, hj, hs, List.filter_append, hw, hany]
    · simp only [Bool.not_eq_true] at hs
      simp [find_red_flags, hj, hs, List.filter_append, hw, hany, isJurisB, signIssue, signDesc,
        jurisdictionDesc, str]
  | some v =>
    have hpv := List.find?_some hj
    have hany : BAD_JURISDICTION.any (fun t => containsSub t (lowerStr text)) = true :=
      List.any_eq_true.mpr ⟨v, List.mem_of_find?_eq_some hj, hpv⟩
    by_cases hs : MISSING_SIGN_KEYS.any (fun k => containsSub k (lowerStr text)) = true
    · simp [find_red_flags, hj, hs, List.filter_append, hw, hany, isJurisB, jurisdictionIssue]
    · simp only [Bool.not_eq_true] at hs
      simp [find_red_flags, hj, hs, List.filter_append, hw, hany, isJurisB, jurisdictionIssue,
        signIssue, signDesc, jurisdictionDesc, str]

/-- C5: the Medium-severity (weak-language) issues of one run are exactly one
issue per fixed weak-commitment phrase found in the lower-cased text, in
phrase-list order; in particular a text containing both "may at its
discretion" and "best efforts" (and not the third phrase) yields exactly two. -/
theorem weak_language_rule :
    (∀ (text : List Char) (r : Retriever) (docType : List Char),
      ((find_red_flags text r docType).filter isMediumB).map Issue.issue
        = (WEAK_LANGUAGE.filter (fun t => containsSub t (lowerStr text))).map weakDesc)
    ∧ (∀ r : Retriever,
      ((find_red_flags (str "It may at its discretion use best efforts.") r (str "X")).filter
          isMediumB).length = 2) := by
  have hA : ∀ (text : List Char) (r : Retriever) (docType : List Char),
      ((find_red_flags text r docType).filter isMediumB).map Issue.issue
        = (WEAK_LANGUAGE.filter (fun t => containsSub t (lowerStr text))).map weakDesc := by
    intro text r docType
    have hwM := weak_part_filter_medium r docType (fun t => containsSub t (lowerStr text))
    have hmap : (((WEAK_LANGUAGE.filter (fun t => containsSub t (lowerStr text))).map
          (weakIssue r docType)).map Issue.issue)
        = (WEAK_LANGUAGE.filter (fun t => containsSub t (lowerStr text))).map weakDesc := by
      rw [List.map_map]
      rfl
    cases hj : BAD_JURISDICTION.find? (fun t => containsSub t (lowerStr text)) with
    | none =>
      by_cases hs : MISSING_SIGN_KEYS.any (fun k => containsSub k (lowerStr text)) = true
      · simp only [find_red_flags, hj, hs, if_true, List.nil_append, List.append_nil]
        rw [hwM, hmap]
      · simp only [Bool.not_eq_true] at hs
        simp only [find_red_flags, hj, hs, Bool.false_eq_true, if_false, List.nil_append,
          List.filter_append, hwM]
        have : [signIssue r docType].filter isMediumB = [] := by
          simp [isMediumB, signIssue, str]
        rw [this, List.append_nil, hmap]
    | some v =>
      have hjf : [jurisdictionIssue r].filter isMediumB = [] := by
        simp [isMediumB, jurisdictionIssue, str]
      by_cases hs : MISSING_SIGN_KEYS.any (fun k => containsSub k (lowerStr text)) = true
      · simp only [find_red_flags, hj, hs, if_true, List.append_nil, List.filter_append, hjf,
          List.nil_append, hwM]
        rw [hmap]
      · simp only [Bool.not_eq_true] at hs
        simp only [find_red_flags, hj, hs, Bool.false_eq_true, if_false, List.filter_append, hjf,
          List.nil_append, hwM]
        have : [signIssue r docType].filter isMediumB = [] := by
          simp [isMediumB, signIssue, str]
        rw [this, List.append_nil, hmap]
  refine ⟨hA, fun r => ?_⟩
  have h := hA (str "It may at its discretion use best efforts.") r (str "X")
  have hlen : ((find_red_flags (str "It may at its discretion use best efforts.") r
      (str "X")).filter isMediumB).length
      = (((find_red_flags (str "It may at its discretion use best efforts.") r
      (str "X")).filter isMediumB).map Issue.issue).length := (List.length_map _ _).symm
  rw [hlen, h]
  decide

theorem juris_part_filters (r : Retriever) :
    [jurisdictionIssue r].filter isJurisB = [jurisdictionIssue r]
    ∧ [jurisdictionIssue r].filter isMediumB = []
    ∧ [jurisdictionIssue r].filter isSignB = [] := by
  refine ⟨?_, ?_, ?_⟩ <;>
    simp [isJurisB, isMediumB, isSignB, jurisdictionIssue, jurisdictionDesc, signDesc, str]

theorem sign_part_filters (r : Retriever) (docType : List Char) :
    [signIssue r docType].filter isSignB = [signIssue r docType]
    ∧ [signIssue r docType].filter isJurisB = []
    ∧ [signIssue r docType].filter isMediumB = [] := by
  refine ⟨?_, ?_, ?_⟩ <;>
    simp [isJurisB, isMediumB, isSignB, signIssue, jurisdictionDesc, signDesc, str]

theorem weak_part_descs (r : Retriever) (docType : List Char) (p : List Char → Bool) :
    ((WEAK_LANGUAGE.filter p).map (weakIssue r docType)).map Issue.issue
      = (WEAK_LANGUAGE.filter p).map weakDesc := by
  rw [List.map_map]
  rfl

theorem weak_part_desc_nodup (r : Retriever) (docType : List Char) (p : List Char → Bool) :
    (((WEAK_LANGUAGE.filter p).map (weakIssue r docType)).map Issue.issue).Nodup := by
  rw [weak_part_descs]
  refine List.Nodup.map_on ?_ (wl_nodup.filter p)
  intro u hu v hv huv
  exact weakDesc_inj_on u (List.mem_filter.mp hu).1 v (List.mem_filter.mp hv).1 huv

/-- C6: when no signature-related keyword occurs in the lower-cased text the
detector emits exactly one missing-signatory issue (zero otherwise), that
issue has High severity, the issue list is ordered jurisdiction-first /
weak-language-in-phrase-order / signature-last, and no issue occurs twice. -/
theorem signature_and_order_rule (text : List Char) (r : Retriever) (docType : List Char) :
    ((find_red_flags text r docType).filter isSignB).length
      = (if MISSING_SIGN_KEYS.any (fun k => containsSub k (lowerStr text)) then 0 else 1)
    ∧ ((find_red_flags text r docType).filter isSignB).map Issue.severity
      = (if MISSING_SIGN_KEYS.any (fun k => containsSub k (lowerStr text)) then [] else [str "High"])
    ∧ find_red_flags text r docType
      = (find_red_flags text r docType).filter isJurisB
        ++ (find_red_flags text r docType).filter isMediumB
        ++ (find_red_flags text r docType).filter isSignB
    ∧ (find_red_flags text r docType).Nodup := by
  obtain ⟨hjj, hjm, hjs⟩ := juris_part_filters r
  obtain ⟨hss, hsj, hsm⟩ := sign_part_filters r docType
  have hwJ := weak_part_filter_juris r docType (fun t => containsSub t (lowerStr text))
  have hwS := weak_part_filter_sign r docType (fun t => containsSub t (lowerStr text))
  have hwM := weak_part_filter_medium r docType (fun t => containsSub t (lowerStr text))
  have hwdn := weak_part_desc_nodup r docType (fun t => containsSub t (lowerStr text))
  have hjdesc : ∀ i ∈ (WEAK_LANGUAGE.filter (fun t => containsSub t (lowerStr text))).map
      (weakIssue r docType), Issue.issue i ≠ jurisdictionDesc := by
    intro i hi
    obtain ⟨t, ht, rfl⟩ := List.mem_map.mp hi
    have := weakDesc_ne_juris t (List.mem_filter.mp ht).1
    simpa [weakIssue] using this
  have hsdesc : ∀ i ∈ (WEAK_LANGUAGE.filter (fun t => containsSub t (lowerStr text))).map
      (weakIssue r docType), Issue.issue i ≠ signDesc := by
    intro i hi
    obtain ⟨t, ht, rfl⟩ := List.mem_map.mp hi
    have := weakDesc_ne_sign t (List.mem_filter.mp ht).1
    simpa [weakIssue] using this
  have hnodup : ∀ (jp sp : List Issue),
      (∀ i ∈ jp, Issue.issue i = jurisdictionDesc) → jp.length ≤ 1 →
      (∀ i ∈ sp, Issue.issue i = signDesc) → sp.length ≤ 1 →
      (jp ++ (WEAK_LANGUAGE.filter (fun t => containsSub t (lowerStr text))).map
        (weakIssue r docType) ++ sp).Nodup := by
    intro jp sp hjp hjplen hsp hsplen
    apply List.Nodup.of_map Issue.issue
    rw [List.map_append, List.map_append]
    rw [List.nodup_append, List.nodup_append]
    refine ⟨⟨?_, ?_, ?_⟩, ?_, ?_⟩
    · cases jp with
      | nil => simp
      | cons a l =>
        cases l with
        | nil => simp
        | cons b l2 => simp at hjplen
    · exact hwdn
    · intro d hd hd2
      obtain ⟨i, hi, rfl⟩ := List.mem_map.mp hd
      obtain ⟨i2, hi2, he⟩ := List.mem_map.mp hd2
      exact hjdesc i2 hi2 (he.trans (hjp i hi)) |>.elim
    · cases sp with
      | nil => simp
      | cons a l =>
        cases l with
        | nil => simp
        | cons b l2 => simp at hsplen
    · intro d hd hd2
      obtain ⟨i2, hi2, he⟩ := List.mem_map.mp hd2
      rw [List.mem_append] at hd
      rcases hd with hd | hd
      · obtain ⟨i, hi, rfl⟩ := List.mem_map.mp hd
        rw [hjp i hi] at he
        rw [hsp i2 hi2] at he
        exact absurd he (by decide)
      · obtain ⟨i, hi, rfl⟩ := List.mem_map.mp hd
        exact hsdesc i hi (he.symm.trans (hsp i2 hi2)) |>.elim
  cases hj : BAD_JURISDICTION.find? (fun t => containsSub t (lowerStr text)) with
  | none =>
    by_cases hs : MISSING_SIGN_KEYS.any (fun k => containsSub k (lowerStr text)) = true
    · simp only [find_red_flags, hj, hs, if_true, List.nil_append, List.append_nil,
        List.filter_append, hwJ, hwS, hwM]
      refine ⟨by trivial, by trivial, by trivial, ?_⟩
      have := hnodup [] [] (by simp) (by simp) (by simp) (by simp)
      simpa using this
    · simp only [Bool.not_eq_true] at hs
      simp only [find_red_flags, hj, hs, Bool.false_eq_true, if_false, List.nil_append,
        List.filter_append, hwJ, hwS, hwM, hss, hsj, hsm]
      refine ⟨by simp, by simp [signIssue], by simp, ?_⟩
      have := hnodup [] [signIssue r docType] (by simp) (by simp)
        (by simp [signIssue]) (by simp)
      simpa using this
  | some v =>
    by_cases hs : MISSING_SIGN_KEYS.any (fun k => containsSub k (lowerStr text)) = true
    · simp only [find_red_flags, hj, hs, if_true, List.append_nil, List.filter_append, hwJ, hwS,
        hwM, hjj, hjm, hjs, List.nil_append]
      refine ⟨by trivial, by trivial, by trivial, ?_⟩
      have := hnodup [jurisdictionIssue r] [] (by simp [jurisdictionIssue]) (by simp)
        (by simp) (by simp)
      simpa using this
    · simp only [Bool.not_eq_true] at hs
      simp only [find_red_flags, hj, hs, Bool.false_eq_true, if_false, List.filter_append, hwJ,
        hwS, hwM, hjj, hjm, hjs, hss, hsj, hsm, List.nil_append, List.append_nil]
      refine ⟨by simp, by simp [signIssue], by simp, ?_⟩
      exact hnodup [jurisdictionIssue r] [signIssue r docType] (by simp [jurisdictionIssue])
        (by simp) (by simp [signIssue]) (by simp)

/- ------------------------------------------------------------------ -/
/- Citations (C2)                                                      -/
/- ------------------------------------------------------------------ -/

/-- The three fixed fallback citation labels of `_find_red_flags`. -/
def fallbackLabels : List (List Char) :=
  [str "ADGM Regulation", str "ADGM Guidance/Template", str "ADGM Template"]

theorem citationFrom_spec (refs : List RDoc) (fb : List Char)
    (hrefs : ∀ d ∈ refs, ∀ s, d.source = some s → s ≠ []) (hfb : fb ≠ []) :
    citationFrom refs fb ≠ []
    ∧ (citationFrom refs fb = fb
       ∨ ∃ d l, refs = d :: l ∧ d.source = some (citationFrom refs fb)) := by
  cases refs with
  | nil => exact ⟨hfb, Or.inl rfl⟩
  | cons d l =>
    cases hsrc : d.source with
    | none => exact ⟨by simpa [citationFrom, hsrc] using hfb, Or.inl (by simp [citationFrom, hsrc])⟩
    | some s =>
      refine ⟨by simpa [citationFrom, hsrc] using hrefs d (by simp) s hsrc, Or.inr ?_⟩
      exact ⟨d, l, rfl, by simp [citationFrom, hsrc]⟩

/-- C2 (amended): when every source identifier the retriever ever returns is
non-empty, every issue's citation is non-empty, and each citation is either a
fixed fallback label or the top retrieved hit's source identifier for some
query. -/
theorem citations_nonempty (text : List Char) (r : Retriever) (docType : List Char)
    (hr : ∀ q, ∀ d ∈ r q, ∀ s, d.source = some s → s ≠ []) :
    ((find_red_flags text r docType).all (fun i => !(i.citation == []))) = true
    ∧ ∀ i ∈ find_red_flags text r docType,
        i.citation ∈ fallbackLabels
        ∨ ∃ q d l, r q = d :: l ∧ d.source = some i.citation := by
  have key : ∀ i ∈ find_red_flags text r docType,
      i.citation ≠ []
      ∧ (i.citation ∈ fallbackLabels
         ∨ ∃ q d l, r q = d :: l ∧ d.source = some i.citation) := by
    intro i hi
    simp only [find_red_flags, List.mem_append] at hi
    have handle : ∀ (q fb : List Char), fb ∈ fallbackLabels → i.citation = citationFrom (r q) fb →
        i.citation ≠ []
        ∧ (i.citation ∈ fallbackLabels
           ∨ ∃ q2 d l, r q2 = d :: l ∧ d.source = some i.citation) := by
      intro q fb hfbmem hcit
      have hfb : fb ≠ [] := by
        revert hfbmem
        have : ∀ x ∈ fallbackLabels, x ≠ [] := by decide
        exact fun hm => this fb hm
      obtain ⟨h1, h2⟩ := citationFrom_spec (r q) fb (fun d hd => hr q d hd) hfb
      rw [hcit]
      refine ⟨h1, ?_⟩
      rcases h2 with h2 | ⟨d, l, hdl, hsrc⟩
      · exact Or.inl (by rw [h2]; exact hfbmem)
      · exact Or.inr ⟨q, d, l, hdl, hsrc⟩
    rcases hi with (hi | hi) | hi
    · have : i = jurisdictionIssue r := by
        revert hi
        cases BAD_JURISDICTION.find? (fun t => containsSub t (lowerStr text)) <;> simp
      exact handle (str "ADGM jurisdiction clause Companies Regulations courts venue")
        (str "ADGM Regulation") (by decide) (by rw [this]; rfl)
    · obtain ⟨t, _, rfl⟩ := List.mem_map.mp hi
      exact handle (str "binding language " ++ docType ++ str " ADGM template clause shall must")
        (str "ADGM Guidance/Template") (by decide) rfl
    · have : i = signIssue r docType := by
        revert hi
        by_cases hs : MISSING_SIGN_KEYS.any (fun k => containsSub k (lowerStr text)) = true <;>
          simp [hs]
      exact handle (docType ++ str " signature block ADGM template") (str "ADGM Template")
        (by decide) (by rw [this]; rfl)
  constructor
  · rw [List.all_eq_true]
    intro i hi
    simpa using (key i hi).1
  · exact fun i hi => (key i hi).2

/-- A retriever that always returns zero hits. -/
def emptyRetriever : Retriever := fun _ => []

/-- Witness for `citations_nonempty` at a concrete text and retriever. -/
theorem citations_nonempty_witness :
    ((find_red_flags (str "dubai courts") emptyRetriever (str "X")).all
      (fun i => !(i.citation == []))) = true :=
  (citations_nonempty (str "dubai courts") emptyRetriever (str "X")
    (fun _ d hd => absurd hd (List.not_mem_nil d))).1

/-- A retriever whose single hit carries an empty source identifier. -/
def emptySourceRetriever : Retriever := fun _ => [{ source := some [] }]

/-- Counterexample to C2 as stated: with a retriever whose top hit's source
identifier is the empty string, the detector emits an issue whose citation is
empty, so "each Issue has a non-empty citation for every retriever" is false. -/
theorem citations_nonempty_counterexample :
    ¬ (∀ i ∈ find_red_flags (str "dubai courts") emptySourceRetriever (str "X"),
        i.citation ≠ []) := by
  intro hall
  have hmem : jurisdictionIssue emptySourceRetriever
      ∈ find_red_flags (str "dubai courts") emptySourceRetriever (str "X") := by
    simp only [find_red_flags]
    have : BAD_JURISDICTION.find?
        (fun t => containsSub t (lowerStr (str "dubai courts")))
        = some (str "dubai courts") := by decide
    rw [this]
    simp
  exact hall (jurisdictionIssue emptySourceRetriever) hmem rfl

/- ------------------------------------------------------------------ -/
/- Missing documents (C1)                                              -/
/- ------------------------------------------------------------------ -/

theorem mem_present_types (files : List Upload) (d : List Char) :
    d ∈ present_types files
      ↔ ∃ f ∈ files, docTypeOf f ≠ str "Unknown" ∧ docTypeOf f = d := by
  simp only [present_types, List.mem_filter, List.mem_map, Bool.not_eq_true',
    beq_eq_false_iff_ne]
  constructor
  · rintro ⟨⟨f, hf, rfl⟩, hne⟩
    exact ⟨f, hf, hne, rfl⟩
  · rintro ⟨f, hf, hne, rfl⟩
    exact ⟨⟨f, hf, rfl⟩, hne⟩

/-- C1: the missing list is the required list minus the types successfully
classified among the uploads (an "Unknown" classification never satisfies a
requirement), kept in required-list order; an empty required list gives an
empty missing list, and a successfully classified type in the required set is
never listed as missing. -/
theorem missing_documents_spec (process : List Char) (files : List Upload) :
    missing_documents process files
      = (requiredDocsFor process).filter
          (fun d => decide (¬ ∃ f ∈ files, docTypeOf f ≠ str "Unknown" ∧ docTypeOf f = d))
    ∧ (requiredDocsFor process = [] → missing_documents process files = [])
    ∧ (∀ f ∈ files, docTypeOf f ≠ str "Unknown" →
        docTypeOf f ∈ requiredDocsFor process →
        docTypeOf f ∉ missing_documents process files) := by
  refine ⟨?_, ?_, ?_⟩
  · apply List.filter_congr
    intro d _
    rw [decide_eq_decide]
    rw [mem_present_types files d]
  · intro h
    simp [missing_documents, h]
  · intro f hf hne hreq hmiss
    have hdec := (List.mem_filter.mp hmiss).2
    have hnotin := of_decide_eq_true hdec
    exact hnotin ((mem_present_types files (docTypeOf f)).mpr ⟨f, hf, hne, rfl⟩)

/-- Witness for `missing_documents_spec`: a classified Employment Contract is
not among the missing documents of the Employment & HR process. -/
theorem missing_documents_spec_witness :
    docTypeOf (str "Employment Contract.docx", [])
      ∉ missing_documents (str "Employment & HR") [(str "Employment Contract.docx", [])] :=
  (missing_documents_spec (str "Employment & HR")
      [(str "Employment Contract.docx", [])]).2.2
    (str "Employment Contract.docx", []) (by decide) (by decide) (by decide)

/- ------------------------------------------------------------------ -/
/- Order-independence of process detection (C7)                        -/
/- ------------------------------------------------------------------ -/

theorem prefix_append_cons (c : Char) (b : List Char) :
    ∀ (a k : List Char), c ∉ k → k <+: a ++ c :: b → k <+: a := by
  intro a
  induction a with
  | nil =>
    intro k hc hk
    cases k with
    | nil => exact List.nil_prefix
    | cons x xs =>
      rw [List.nil_append, List.cons_prefix_cons] at hk
      obtain ⟨rfl, -⟩ := hk
      exact absurd (List.mem_cons_self x xs) hc
  | cons d a2 ih =>
    intro k hc hk
    cases k with
    | nil => exact List.nil_prefix
    | cons x xs =>
      rw [List.cons_append, List.cons_prefix_cons] at hk
      obtain ⟨rfl, hk2⟩ := hk
      have hcxs : c ∉ xs := fun hm => hc (List.mem_cons_of_mem _ hm)
      exact List.cons_prefix_cons.mpr ⟨rfl, ih xs hcxs hk2⟩

theorem infix_append_cons_iff (c : Char) (b k : List Char) (hc : c ∉ k) :
    ∀ a : List Char, k <:+: a ++ c :: b ↔ k <:+: a ∨ k <:+: b := by
  intro a
  induction a with
  | nil =>
    rw [List.nil_append]
    constructor
    · intro hk
      rw [List.infix_cons_iff] at hk
      rcases hk with hk | hk
      · cases k with
        | nil => exact Or.inl List.nil_infix
        | cons x xs =>
          rw [List.cons_prefix_cons] at hk
          obtain ⟨rfl, -⟩ := hk
          exact absurd (List.mem_cons_self x xs) hc
      · exact Or.inr hk
    · rintro (hk | hk)
      · rw [List.eq_nil_of_infix_nil hk]
        exact List.nil_infix
      · exact hk.trans (List.suffix_cons c b).isInfix
  | cons d a2 ih =>
    constructor
    · intro hk
      rw [List.cons_append, List.infix_cons_iff] at hk
      rcases hk with hk | hk
      · cases k with
        | nil => exact Or.inl List.nil_infix
        | cons x xs =>
          rw [List.cons_prefix_cons] at hk
          obtain ⟨rfl, hk2⟩ := hk
          have hcxs : c ∉ xs := fun hm => hc (List.mem_cons_of_mem _ hm)
          have hpre := prefix_append_cons c b a2 xs hcxs hk2
          exact Or.inl (List.cons_prefix_cons.mpr ⟨rfl, hpre⟩).isInfix
      · rcases ih.mp hk with h | h
        · exact Or.inl (h.trans (List.suffix_cons d a2).isInfix)
        · exact Or.inr h
    · rintro (hk | hk)
      · exact hk.trans ⟨[], c :: b, by simp⟩
      · rw [List.cons_append]
        exact (ih.mpr (Or.inr hk)).trans (List.suffix_cons d _).isInfix

theorem intercalate_cons_cons (sep x y : List Char) (l : List (List Char)) :
    List.intercalate sep (x :: y :: l) = x ++ sep ++ List.intercalate sep (y :: l) := by
  simp [List.intercalate, List.intersperse]

theorem infix_intercalate_iff (k : List Char) (hk : (' ' : Char) ∉ k) :
    ∀ l : List (List Char), l ≠ [] →
      (k <:+: List.intercalate (str " ") l ↔ ∃ s ∈ l, k <:+: s) := by
  intro l
  induction l with
  | nil => intro h; exact absurd rfl h
  | cons x rest ih =>
    intro _
    cases rest with
    | nil => simp [List.intercalate]
    | cons y rest2 =>
      rw [intercalate_cons_cons, List.append_assoc]
      have hsp : x ++ (str " " ++ List.intercalate (str " ") (y :: rest2))
          = x ++ ' ' :: List.intercalate (str " ") (y :: rest2) := rfl
      rw [hsp,
        infix_append_cons_iff ' ' (List.intercalate (str " ") (y :: rest2)) k hk x,
        ih (by simp)]
      constructor
      · rintro (h | ⟨s, hs, h⟩)
        · exact ⟨x, by simp, h⟩
        · exact ⟨s, List.mem_cons_of_mem _ hs, h⟩
      · rintro ⟨s, hs, h⟩
        rcases List.mem_cons.mp hs with rfl | hs2
        · exact Or.inl h
        · exact Or.inr ⟨s, hs2, h⟩

theorem any_congr_on {α : Type} (p q : α → Bool) :
    ∀ l : List α, (∀ a ∈ l, p a = q a) → l.any p = l.any q := by
  intro l
  induction l with
  | nil => intro _; rfl
  | cons x xs ih =>
    intro h
    simp only [List.any_cons, h x (by simp), ih (fun a ha => h a (List.mem_cons_of_mem _ ha))]

theorem containsSub_joined_perm (k : List Char) (hk : (' ' : Char) ∉ k)
    (l l2 : List (List Char)) (hp : l.Perm l2) :
    containsSub k (joinedFilenames l) = containsSub k (joinedFilenames l2) := by
  cases l with
  | nil =>
    have : l2 = [] := hp.symm.eq_nil
    rw [this]
  | cons x rest =>
    have h1 : (x :: rest).map lowerStr ≠ [] := by simp
    have h2 : l2.map lowerStr ≠ [] := by
      have h2ne : l2 ≠ [] := by
        intro h
        have hlen := hp.length_eq
        rw [h] at hlen
        simp at hlen
      simpa using h2ne
    have hiff : containsSub k (joinedFilenames (x :: rest)) = true
        ↔ containsSub k (joinedFilenames l2) = true := by
      rw [containsSub_iff, containsSub_iff]
      unfold joinedFilenames
      rw [infix_intercalate_iff k hk _ h1, infix_intercalate_iff k hk _ h2]
      constructor
      · rintro ⟨s, hs, h⟩
        exact ⟨s, ((hp.map lowerStr).mem_iff).mp hs, h⟩
      · rintro ⟨s, hs, h⟩
        exact ⟨s, ((hp.map lowerStr).mem_iff).mpr hs, h⟩
    cases hc1 : containsSub k (joinedFilenames (x :: rest)) <;>
      cases hc2 : containsSub k (joinedFilenames l2)
    · rfl
    · exact absurd (hiff.mpr hc2) (by simp [hc1])
    · exact absurd (hiff.mp hc1) (by simp [hc2])
    · rfl

/-- C7: `detect_process_from_docs` is order-independent (permuting the input
filename list never changes the result), and when no keyword of any process
occurs in the joined lower-cased filenames it returns the fixed default
process "Company Incorporation". -/
theorem detect_process_order_and_default :
    (∀ l l2 : List (List Char), l.Perm l2 →
      detect_process_from_docs l = detect_process_from_docs l2)
    ∧ (∀ l : List (List Char),
      ((INCORP_KEYWORDS ++ HR_KEYWORDS).all
          (fun k => !(containsSub k (joinedFilenames l)))) = true →
      detect_process_from_docs l = str "Company Incorporation") := by
  constructor
  · intro l l2 hp
    have hflag : ∀ K : List (List Char), (∀ k ∈ K, (' ' : Char) ∉ k) →
        K.any (fun k => containsSub k (joinedFilenames l))
          = K.any (fun k => containsSub k (joinedFilenames l2)) := by
      intro K hK
      exact any_congr_on _ _ K (fun k hkK => containsSub_joined_perm k (hK k hkK) l l2 hp)
    simp only [detect_process_from_docs]
    rw [hflag INCORP_KEYWORDS (by decide), hflag HR_KEYWORDS (by decide)]
  · intro l hall
    rw [List.all_eq_true] at hall
    have h1 : INCORP_KEYWORDS.any (fun k => containsSub k (joinedFilenames l)) = false := by
      rw [Bool.eq_false_iff]
      intro hcon
      obtain ⟨t, ht, hpb⟩ := List.any_eq_true.mp hcon
      have := hall t (List.mem_append_left _ ht)
      simp [hpb] at this
    have h2 : HR_KEYWORDS.any (fun k => containsSub k (joinedFilenames l)) = false := by
      rw [Bool.eq_false_iff]
      intro hcon
      obtain ⟨t, ht, hpb⟩ := List.any_eq_true.mp hcon
      have := hall t (List.mem_append_right _ ht)
      simp [hpb] at this
    simp [detect_process_from_docs, h1, h2]

/-- Witness for `detect_process_order_and_default` at concrete inputs. -/
theorem detect_process_order_witness :
    detect_process_from_docs [str "AoA.docx", str "employment.docx"]
      = detect_process_from_docs [str "employment.docx", str "AoA.docx"]
    ∧ detect_process_from_docs [str "zzz.pdf"] = str "Company Incorporation" :=
  ⟨detect_process_order_and_default.1 _ _
      (List.Perm.swap (str "employment.docx") (str "AoA.docx") []),
   detect_process_order_and_default.2 [str "zzz.pdf"] (by decide)⟩

/- ------------------------------------------------------------------ -/
/- comments_util.py and _insert_comments (C8, C9)                      -/
/- ------------------------------------------------------------------ -/

/-- Python `str.strip()`: leading and trailing whitespace removed. -/
def pyStrip (s : List Char) : List Char :=
  ((s.dropWhile Char.isWhitespace).reverse.dropWhile Char.isWhitespace).reverse

/-- The anchor condition of `_insert_comments`:
`p.text and len(p.text.strip()) > 3`. -/
def isSubstantive (p : List Char) : Bool :=
  !p.isEmpty && decide (3 < (pyStrip p).length)

/-- Index of the first paragraph satisfying the anchor condition (the search
loop of `_insert_comments`). -/
def firstSubstantive : List (List Char) → Option Nat
  | [] => none
  | p :: rest => if isSubstantive p then some 0 else (firstSubstantive rest).map (· + 1)

/-- The `target_idx` computed per issue by `_insert_comments` (0 when no
paragraph qualifies, the loop's initial value). -/
def target_idx (paras : List (List Char)) : Nat := (firstSubstantive paras).getD 0

/-- Combined note `f"{issue} | Suggestion: {sugg} | Source: {cit}"`. -/
def noteOf (i : Issue) : List Char :=
  i.issue ++ str " | Suggestion: " ++ i.suggestion ++ str " | Source: " ++ i.citation

/-- Kind of comment that ended up inserted for one issue. -/
inductive CommentKind
  | structural
  | fallbackHighlight
deriving DecidableEq

/-- Inline text appended by the except branch of `_add_comment`
(`paragraph.add_run(f" [COMMENT] {text}")`). -/
def fallbackRunText (text : List Char) : List Char := str " [COMMENT] " ++ text

/-- The `_add_comment` function of `comments_util.py`. The structural OOXML
path only adds comment-part and range elements, leaving paragraph texts
unchanged; whether it raises is environment-dependent and is modelled by the
`structuralOk` bit. The fallback appends a highlighted run to the paragraph. -/
def add_comment (paras : List (List Char)) (idx : Nat) (text : List Char)
    (structuralOk : Bool) : List (List Char) × CommentKind :=
  if structuralOk then (paras, CommentKind.structural)
  else (paras.set idx (paras.getD idx [] ++ fallbackRunText text),
        CommentKind.fallbackHighlight)

/-- The `add_comment_at_paragraph` function: bounds check, then `_add_comment`;
an out-of-range index inserts nothing and returns immediately. -/
def add_comment_at_paragraph (paras : List (List Char)) (paraIdx : Nat) (text : List Char)
    (structuralOk : Bool) : List (List Char) × Option CommentKind :=
  if paraIdx < paras.length then
    ((add_comment paras paraIdx text structuralOk).1,
     some (add_comment paras paraIdx text structuralOk).2)
  else (paras, none)

/-- The per-issue loop of `_insert_comments`: recompute the anchor, insert, and
record the anchor and the inserted comment kind for each issue. The oracle
gives the outcome of each structural attempt. -/
def insert_comments (paras : List (List Char)) (issues : List Issue) (oracle : Nat → Bool)
    (start : Nat) : List (List Char) × List (Nat × Option CommentKind) :=
  match issues with
  | [] => (paras, [])
  | it :: rest =>
    let t := target_idx paras
    let stp := add_comment_at_paragraph paras t (noteOf it) (oracle start)
    let tail := insert_comments stp.1 rest oracle (start + 1)
    (tail.1, (t, stp.2) :: tail.2)

theorem stripR_append_ge (x y : List Char) :
    ((y.reverse).dropWhile Char.isWhitespace).length
      ≤ (((x ++ y).reverse).dropWhile Char.isWhitespace).length := by
  rw [List.reverse_append, List.dropWhile_append]
  split
  · next hemp =>
    have hnil : List.dropWhile Char.isWhitespace y.reverse = [] := by simpa using hemp
    simp [hnil]
  · rw [List.length_append]
    omega

theorem stripR_comment_gt (y : List Char) :
    3 < (((str "[COMMENT] " ++ y).reverse).dropWhile Char.isWhitespace).length := by
  rw [List.reverse_append, List.dropWhile_append]
  split
  · decide
  · rw [List.length_append]
    have h10 : ((str "[COMMENT] ").reverse).length = 10 := by decide
    omega

theorem isSubstantive_append_fallback (p note : List Char) :
    isSubstantive (p ++ fallbackRunText note) = true := by
  rw [isSubstantive, Bool.and_eq_true]
  constructor
  · simp [fallbackRunText, str]
  · rw [decide_eq_true_eq]
    unfold pyStrip
    rw [List.length_reverse]
    have hfb : p ++ fallbackRunText note = p ++ (' ' :: (str "[COMMENT] " ++ note)) := rfl
    rw [hfb, List.dropWhile_append]
    split
    · have hdw : List.dropWhile Char.isWhitespace (' ' :: (str "[COMMENT] " ++ note))
          = str "[COMMENT] " ++ note := by
        rw [List.dropWhile_cons]
        rw [if_pos (by decide)]
        rw [show str "[COMMENT] " ++ note = '[' :: (str "COMMENT] " ++ note) from rfl]
        rw [List.dropWhile_cons]
        rw [if_neg (by decide)]
      rw [hdw]
      exact stripR_comment_gt note
    · have hassoc : List.dropWhile Char.isWhitespace p ++ (' ' :: (str "[COMMENT] " ++ note))
          = (List.dropWhile Char.isWhitespace p ++ [' ']) ++ (str "[COMMENT] " ++ note) := by
        simp
      rw [hassoc]
      exact lt_of_lt_of_le (stripR_comment_gt note) (stripR_append_ge _ _)

theorem firstSubstantive_lt_length (paras : List (List Char)) :
    ∀ j, firstSubstantive paras = some j → j < paras.length := by
  induction paras with
  | nil => intro j h; simp [firstSubstantive] at h
  | cons p rest ih =>
    intro j h
    rw [firstSubstantive] at h
    split at h
    · cases h
      simp
    · cases hr : firstSubstantive rest with
      | none => rw [hr] at h; simp at h
      | some j2 =>
        rw [hr] at h
        simp only [Option.map_some'] at h
        cases h
        have := ih j2 hr
        simp only [List.length_cons]
        omega

theorem target_idx_lt_length (paras : List (List Char)) (hne : paras ≠ []) :
    target_idx paras < paras.length := by
  unfold target_idx
  cases hr : firstSubstantive paras with
  | none =>
    simp only [Option.getD_none]
    exact List.length_pos.mpr hne
  | some j => simpa using firstSubstantive_lt_length paras j hr

theorem firstSubstantive_fallback_append (note : List Char) :
    ∀ paras : List (List Char), paras ≠ [] →
    firstSubstantive (paras.set (target_idx paras)
        (paras.getD (target_idx paras) [] ++ fallbackRunText note))
      = some (target_idx paras) := by
  intro paras
  induction paras with
  | nil => intro h; exact absurd rfl h
  | cons p rest ih =>
    intro _
    by_cases hp : isSubstantive p = true
    · have ht : target_idx (p :: rest) = 0 := by
        simp [target_idx, firstSubstantive, hp]
      rw [ht]
      show firstSubstantive ((p ++ fallbackRunText note) :: rest) = some 0
      simp [firstSubstantive, isSubstantive_append_fallback]
    · rw [Bool.not_eq_true] at hp
      cases hr : firstSubstantive rest with
      | none =>
        have ht : target_idx (p :: rest) = 0 := by
          simp [target_idx, firstSubstantive, hp, hr]
        rw [ht]
        show firstSubstantive ((p ++ fallbackRunText note) :: rest) = some 0
        simp [firstSubstantive, isSubstantive_append_fallback]
      | some j =>
        have ht : target_idx (p :: rest) = j + 1 := by
          simp [target_idx, firstSubstantive, hp, hr]
        rw [ht, List.set_cons_succ, List.getD_cons_succ]
        have hrne : rest ≠ [] := by
          intro h
          rw [h] at hr
          simp [firstSubstantive] at hr
        have htr : target_idx rest = j := by simp [target_idx, hr]
        have ihr := ih hrne
        rw [htr] at ihr
        rw [firstSubstantive]
        rw [if_neg (by simp [hp])]
        rw [ihr]
        rfl

theorem target_idx_after_insert (paras : List (List Char)) (note : List Char) (ok : Bool) :
    target_idx ((add_comment_at_paragraph paras (target_idx paras) note ok).1)
      = target_idx paras := by
  unfold add_comment_at_paragraph
  split
  · next hlt =>
    unfold add_comment
    cases ok with
    | true => simp
    | false =>
      simp only [Bool.false_eq_true, if_false]
      have hne : paras ≠ [] := by
        intro h
        rw [h] at hlt
        simp at hlt
      show target_idx (paras.set (target_idx paras)
          (paras.getD (target_idx paras) [] ++ fallbackRunText note)) = target_idx paras
      rw [target_idx, firstSubstantive_fallback_append note paras hne]
      rfl
  · rfl

/-- C8 (amended): each issue's comment is anchored at the index of the first
paragraph whose text is non-empty and longer than 3 characters once stripped
of leading/trailing whitespace (index 0 when no paragraph qualifies); the
anchor is recomputed fresh per issue yet is the same initial index for every
issue of the run. -/
theorem anchors_all_first_substantive (issues : List Issue) :
    ∀ (paras : List (List Char)) (oracle : Nat → Bool) (start : Nat),
    (insert_comments paras issues oracle start).2.map Prod.fst
      = List.replicate issues.length (target_idx paras) := by
  induction issues with
  | nil => intro paras oracle start; rfl
  | cons it rest ih =>
    intro paras oracle start
    rw [insert_comments]
    simp only [List.map_cons]
    have hpres := target_idx_after_insert paras (noteOf it) (oracle start)
    rw [ih _ oracle (start + 1), hpres]
    rfl

/-- Modelled from the spec: the anchor C8 describes, namely the index of the
first paragraph with more than 3 non-whitespace characters. -/
def specAnchorNonWs : List (List Char) → Option Nat
  | [] => none
  | p :: rest =>
      if 3 < (p.filter (fun c => !(Char.isWhitespace c))).length then some 0
      else (specAnchorNonWs rest).map (· + 1)

/-- Fixed sample issue record used for concrete runs. -/
def sampleIssue : Issue :=
  { issue := str "i", severity := str "High", suggestion := str "s", citation := str "c" }

/-- Counterexample to C8 as stated: for paragraphs ["a   b", "abcd"] the code
anchors every comment at paragraph 0, whose stripped length is 5 (> 3) but
which has only 2 non-whitespace characters; the first paragraph with more
than 3 non-whitespace characters is paragraph 1, so the claimed anchor rule
disagrees with the code. -/
theorem anchor_counterexample :
    target_idx [str "a   b", str "abcd"] = 0
    ∧ specAnchorNonWs [str "a   b", str "abcd"] = some 1
    ∧ (insert_comments [str "a   b", str "abcd"] [sampleIssue]
        (fun _ => true) 0).2.map Prod.fst = [0] := by
  refine ⟨by decide, by decide, by decide⟩

/-- C9 (amended): for every document with at least one paragraph, every issue
results in an inserted comment — the structural one exactly when the
structural attempt succeeds, the highlighted inline fallback otherwise. -/
theorem every_issue_gets_comment (issues : List Issue) :
    ∀ (paras : List (List Char)) (oracle : Nat → Bool) (start : Nat), paras ≠ [] →
    (insert_comments paras issues oracle start).2.map Prod.snd
      = (List.range issues.length).map
          (fun j => some (if oracle (start + j) then CommentKind.structural
                          else CommentKind.fallbackHighlight)) := by
  induction issues with
  | nil => intro paras oracle start _; rfl
  | cons it rest ih =>
    intro paras oracle start hne
    have hlt : target_idx paras < paras.length := target_idx_lt_length paras hne
    have hrange : (List.range (rest.length + 1)).map
        (fun j => some (if oracle (start + j) then CommentKind.structural
                        else CommentKind.fallbackHighlight))
      = some (if oracle start then CommentKind.structural else CommentKind.fallbackHighlight)
        :: (List.range rest.length).map
          (fun j => some (if oracle (start + 1 + j) then CommentKind.structural
                          else CommentKind.fallbackHighlight)) := by
      rw [List.range_succ_eq_map, List.map_cons]
      congr 1
      rw [List.map_map]
      apply List.map_congr_left
      intro a _
      have harith : start + (a + 1) = start + 1 + a := by omega
      simp [Function.comp, Nat.succ_eq_add_one, harith]
    rw [insert_comments]
    simp only [List.map_cons, List.length_cons, hrange]
    have hstep : add_comment_at_paragraph paras (target_idx paras) (noteOf it) (oracle start)
        = if oracle start then (paras, some CommentKind.structural)
          else (paras.set (target_idx paras)
                  (paras.getD (target_idx paras) [] ++ fallbackRunText (noteOf it)),
                some CommentKind.fallbackHighlight) := by
      unfold add_comment_at_paragraph add_comment
      rw [if_pos hlt]
      cases oracle start <;> simp
    cases ho : oracle start with
    | true =>
      rw [ho] at hstep
      simp only [if_true] at hstep
      rw [hstep]
      simp only [ho, if_true]
      congr 1
      exact ih paras oracle (start + 1) hne
    | false =>
      rw [ho] at hstep
      simp only [Bool.false_eq_true, if_false] at hstep
      rw [hstep]
      simp only [ho, Bool.false_eq_true, if_false]
      congr 1
      apply ih _ oracle (start + 1)
      intro h
      have := congrArg List.length h
      rw [List.length_set] at this
      rw [this] at hlt
      simp at hlt

/-- Witness for `every_issue_gets_comment`: one issue on a one-paragraph
document with a failing structural path gets the fallback comment. -/
theorem every_issue_gets_comment_witness :
    (insert_comments [str "Hello world"] [sampleIssue] (fun _ => false) 0).2.map Prod.snd
      = [some CommentKind.fallbackHighlight] := by
  have h := every_issue_gets_comment [sampleIssue] [str "Hello world"] (fun _ => false) 0
    (by decide)
  simpa using h

/-- Counterexample to C9 as stated: on a document with zero paragraphs the
bounds check of `add_comment_at_paragraph` fails, so neither a structural
comment nor the fallback is inserted for the issue — "each issue results in a
comment being inserted" is false. -/
theorem empty_doc_no_comment_counterexample :
    (insert_comments [] [sampleIssue] (fun _ => true) 0).2 = [(0, none)]
    ∧ ¬ (∀ rec ∈ (insert_comments [] [sampleIssue] (fun _ => true) 0).2,
          (Prod.snd rec).isSome = true) := by
  refine ⟨by decide, ?_⟩
  intro hall
  have hfalse := hall (0, none) (by decide)
  simp at hfalse

/- ------------------------------------------------------------------ -/
/- Truncation of the analysis text (C10)                               -/
/- ------------------------------------------------------------------ -/

theorem juris_ne_weak : ∀ k ∈ WEAK_LANGUAGE, jurisdictionDesc ≠ weakDesc k := by decide

theorem sign_ne_weak : ∀ k ∈ WEAK_LANGUAGE, signDesc ≠ weakDesc k := by decide

/-- C10: the text used for classification and red-flag detection is the
newline-joined paragraph text truncated to its first 20000 characters; a
weak-commitment phrase not occurring in this truncated text is never flagged,
no jurisdiction issue is emitted when no jurisdiction phrase occurs in it, and
a document type none of whose keywords occurs in the filename-plus-truncated-
text haystack is never the classification result. -/
theorem truncation_bounds_analysis (paras : List (List Char)) :
    (extract_text paras = (List.intercalate (str "\n") paras).take 20000
      ∧ (extract_text paras).length ≤ 20000)
    ∧ (∀ k ∈ WEAK_LANGUAGE, containsSub k (lowerStr (extract_text paras)) = false →
        ∀ (r : Retriever) (docType : List Char),
          ∀ i ∈ find_red_flags (extract_text paras) r docType, i.issue ≠ weakDesc k)
    ∧ ((∀ t ∈ BAD_JURISDICTION, containsSub t (lowerStr (extract_text paras)) = false) →
        ∀ (r : Retriever) (docType : List Char),
          ∀ i ∈ find_red_flags (extract_text paras) r docType, i.issue ≠ jurisdictionDesc)
    ∧ (∀ fn dtype : List Char, dtype ∈ DOC_TYPE_KEYWORDS.map Prod.fst →
        (∀ e ∈ DOC_TYPE_KEYWORDS, e.1 = dtype →
          ∀ k ∈ e.2, containsSub k (classifyHay fn (extract_text paras)) = false) →
        classify_doc_type fn (extract_text paras) ≠ dtype) := by
  refine ⟨⟨rfl, ?_⟩, ?_, ?_, ?_⟩
  · exact List.length_take_le 20000 _
  · intro k hkW hknot r docType i hi
    simp only [find_red_flags, List.mem_append] at hi
    rcases hi with (hi | hi) | hi
    · have hieq : i = jurisdictionIssue r := by
        revert hi
        cases BAD_JURISDICTION.find?
          (fun t => containsSub t (lowerStr (extract_text paras))) <;> simp
      rw [hieq]
      exact juris_ne_weak k hkW
    · obtain ⟨t, ht, rfl⟩ := List.mem_map.mp hi
      obtain ⟨htW, htc⟩ := List.mem_filter.mp ht
      intro heq
      have : t = k := weakDesc_inj_on t htW k hkW heq
      rw [this] at htc
      rw [hknot] at htc
      exact absurd htc (by simp)
    · have hieq : i = signIssue r docType := by
        revert hi
        by_cases hs : MISSING_SIGN_KEYS.any
            (fun k2 => containsSub k2 (lowerStr (extract_text paras))) = true <;> simp [hs]
      rw [hieq]
      exact sign_ne_weak k hkW
  · intro hall r docType i hi
    have hnone : BAD_JURISDICTION.find?
        (fun t => containsSub t (lowerStr (extract_text paras))) = none := by
      rw [List.find?_eq_none]
      intro t ht
      simp [hall t ht]
    simp only [find_red_flags, hnone, List.nil_append, List.mem_append] at hi
    rcases hi with hi | hi
    · obtain ⟨t, ht, rfl⟩ := List.mem_map.mp hi
      intro heq
      exact juris_ne_weak t (List.mem_filter.mp ht).1 heq.symm
    · have hieq : i = signIssue r docType := by
        revert hi
        by_cases hs : MISSING_SIGN_KEYS.any
            (fun k2 => containsSub k2 (lowerStr (extract_text paras))) = true <;> simp [hs]
      rw [hieq]
      intro heq
      have hne : signDesc ≠ jurisdictionDesc := by decide
      exact hne heq
  · intro fn dtype hdt hkeys hclassify
    have hcl2 : ((DOC_TYPE_KEYWORDS.find?
        (fun e => e.2.any (fun k => containsSub k (classifyHay fn (extract_text paras))))).map
          Prod.fst).getD (str "Unknown") = dtype := hclassify
    cases hf : DOC_TYPE_KEYWORDS.find?
        (fun e => e.2.any (fun k => containsSub k (classifyHay fn (extract_text paras)))) with
    | none =>
      rw [hf] at hcl2
      simp only [Option.map_none', Option.getD_none] at hcl2
      have hunk : ∀ d ∈ DOC_TYPE_KEYWORDS.map Prod.fst, d ≠ str "Unknown" := by decide
      exact hunk dtype hdt hcl2.symm
    | some e =>
      rw [hf] at hcl2
      simp only [Option.map_some', Option.getD_some] at hcl2
      have hmem := List.mem_of_find?_eq_some hf
      have hpred := List.find?_some hf
      obtain ⟨k2, hk2, hc⟩ := List.any_eq_true.mp hpred
      have hfalse := hkeys e hmem hcl2 k2 hk2
      rw [hfalse] at hc
      exact absurd hc (by simp)

/-- Witness for `truncation_bounds_analysis`: a document type with no matching
keyword in the haystack is not the classification result. -/
theorem truncation_bounds_analysis_witness :
    classify_doc_type (str "notes.txt") (extract_text [str "hello"]) ≠ str "Board Resolution" :=
  (truncation_bounds_analysis [str "hello"]).2.2.2 (str "notes.txt") (str "Board Resolution")
    (by decide) (by decide)
